import Mathlib

/-!
Verification of the MMLT renderer core (`src/`): shallow embedding of the
path/technique/contribution data model, the primary-sample-space sampler,
the MIS weight computation, the Metropolis integrator's deposit step and the
image accumulator, together with proofs of the spec's testable properties.

Conventions of the embedding:
* `f64` values that the claims treat exactly (pdfs, scalars, spectra,
  acceptance ratios, deposit weights) are modelled as `ℚ`, so that all of
  those definitions are executable and concrete instances can be settled by
  `decide`.  The sampler and `geometry_term`, whose code calls `sqrt`/`ln`,
  are modelled over `ℝ`.
* Fallible operations (`start_stream` with its contract panic) return
  `Option`.
* `Vec<T>` becomes `List T`; in-place updates become `List.set`.
-/

namespace Mmlt

/-- `PathType` (src/types.rs, declared in `mod types`; the file is not part
of src/ but the enum's two variants `Camera`/`Light` are fixed by every use
site, e.g. `Technique::path_type`). -/
inductive PathType where
  | Camera : PathType
  | Light : PathType
deriving DecidableEq, Repr

/-- `RgbSpectrum` (src/spectrum.rs, lines 13-18), components modelled as ℚ. -/
structure Spectrum where
  r : ℚ
  g : ℚ
  b : ℚ
deriving DecidableEq, Repr

namespace Spectrum

/-- `RgbSpectrum::fill` (src/spectrum.rs, line 37). -/
def fill (v : ℚ) : Spectrum := ⟨v, v, v⟩

/-- `RgbSpectrum::black` (src/spectrum.rs, line 29). -/
def black : Spectrum := fill 0

/-- `RgbSpectrum::is_black` (src/spectrum.rs, line 33). -/
def isBlack (s : Spectrum) : Prop := s.r = 0 ∧ s.g = 0 ∧ s.b = 0

instance (s : Spectrum) : Decidable s.isBlack :=
  inferInstanceAs (Decidable (s.r = 0 ∧ s.g = 0 ∧ s.b = 0))

/-- Componentwise product, `RgbSpectrum::mul` (src/spectrum.rs, line 41). -/
def mul (s t : Spectrum) : Spectrum := ⟨s.r * t.r, s.g * t.g, s.b * t.b⟩

/-- `impl Add for RgbSpectrum` (src/spectrum.rs, line 62). -/
def add (s t : Spectrum) : Spectrum := ⟨s.r + t.r, s.g + t.g, s.b + t.b⟩

/-- `impl Mul<f64> for RgbSpectrum` (src/spectrum.rs, line 73). -/
def smul (s : Spectrum) (c : ℚ) : Spectrum := ⟨s.r * c, s.g * c, s.b * c⟩

/-- `impl Div<f64> for RgbSpectrum` (src/spectrum.rs, line 95). -/
def divScalar (s : Spectrum) (c : ℚ) : Spectrum := ⟨s.r / c, s.g / c, s.b / c⟩

/-- The constant `LUMINANCE_WEIGHT` (src/spectrum.rs, lines 7-11). -/
def luminanceWeight : Spectrum := ⟨212671 / 1000000, 715160 / 1000000, 72169 / 1000000⟩

/-- `RgbSpectrum::luminance` (src/spectrum.rs, line 49). -/
def luminance (s : Spectrum) : ℚ :=
  s.r * luminanceWeight.r + s.g * luminanceWeight.g + s.b * luminanceWeight.b

end Spectrum

/-- `Point2 = Vector2` over ℚ (src/vector.rs). -/
structure Point2 where
  x : ℚ
  y : ℚ
deriving DecidableEq, Repr

/-- `Technique` (src/path.rs, lines 44-48). -/
structure Technique where
  camera : ℕ
  light : ℕ
deriving DecidableEq, Repr

namespace Technique

/-- Both `Sampler` implementations (`MmltSampler::sample`, src/sampler.rs line
143, and the test `MockSampler::sample`, line 180) return
`value * (range.end - range.start) + range.start` for a unit draw `value`. -/
def scaleToRange (u lo hi : ℚ) : ℚ := u * (hi - lo) + lo

/-- `Technique::sample` (src/path.rs, lines 51-57), parameterised by the
sampler's unit draw `u ∈ [0,1)`.  `r.floor() as usize` saturates negative
values to 0, hence `Int.toNat`; `path_length - camera` is `usize`
subtraction, hence truncated `ℕ` subtraction. -/
def sample (pathLength : ℕ) (u : ℚ) : Technique :=
  let e : ℚ := (pathLength : ℚ) + 1
  let r := scaleToRange u 1 e
  let camera := (⌊r⌋).toNat
  { camera := camera, light := pathLength - camera }

/-- `Technique::path_type` (src/path.rs, lines 63-69). -/
def pathType (t : Technique) (n : ℕ) : PathType :=
  if n < t.camera then PathType.Camera else PathType.Light

end Technique

/-- `Contribution` (src/path.rs, lines 72-77). -/
structure Contribution where
  scalar : ℚ
  spectrum : Spectrum
  pixelCoordinates : Point2
deriving DecidableEq, Repr

namespace Contribution

/-- `Contribution::empty` (src/path.rs, lines 80-86). -/
def empty : Contribution :=
  { scalar := 0, spectrum := Spectrum.black, pixelCoordinates := ⟨0, 0⟩ }

/-- `Contribution::is_empty` (src/path.rs, line 88). -/
def isEmpty (c : Contribution) : Prop := c.scalar = 0

instance (c : Contribution) : Decidable c.isEmpty :=
  inferInstanceAs (Decidable (c.scalar = 0))

/-- `Contribution::acceptance` (src/path.rs, lines 92-107). -/
def acceptance (currentContribution proposalContribution : Contribution) : ℚ :=
  if currentContribution.scalar > 0 then
    max (min 1 (proposalContribution.scalar / currentContribution.scalar)) 0
  else
    1

end Contribution

/-- The clamp function named by the spec: `clamp(x, 0, 1)`. -/
def clamp01 (x : ℚ) : ℚ := min 1 (max 0 x)

/-- `Vertex` (src/path.rs, lines 23-28). -/
structure Vertex where
  throughput : Spectrum
  forward_pdf : Option ℚ
  reverse_pdf : Option ℚ
deriving DecidableEq, Repr

namespace Vertex

/-- `Vertex::weight` (src/path.rs, lines 30-42). -/
def weight (v : Vertex) : Option ℚ :=
  if v.forward_pdf = none ∧ v.reverse_pdf = none then none
  else
    let fwd := v.forward_pdf.getD 1
    let rev := v.reverse_pdf.getD 1
    if fwd = 0 then none else some (rev / fwd)

end Vertex

/-- `Path` (src/path.rs, lines 16-21). -/
structure Path where
  vertices : List Vertex
  technique : Technique
  pixelCoordinates : Point2
deriving DecidableEq, Repr

namespace Path

/-- `Path::throughput` (src/path.rs, lines 495-500). -/
def throughput (p : Path) : Spectrum :=
  (p.vertices.map Vertex.throughput).foldl Spectrum.mul (Spectrum.fill 1)

/-- `Path::pdf` (src/path.rs, lines 502-507). -/
def pdf (p : Path) : ℚ :=
  (p.vertices.map (fun v => v.forward_pdf.getD 1)).foldl (· * ·) 1

/-- One pass of the accumulation loop in `Path::weight` (src/path.rs,
lines 513-518 and 523-528): state `(product, sum)`, vertices with
`weight() == None` are skipped. -/
def weightLoop (acc : ℚ × ℚ) (vs : List Vertex) : ℚ × ℚ :=
  vs.foldl
    (fun a v =>
      match v.weight with
      | some w => (a.1 * w, a.2 + a.1 * w)
      | none => a)
    acc

/-- `Path::weight` (src/path.rs, lines 509-532): the camera-side slice
`vertices[0..camera]` is walked in reverse, then (guarded by
`light >= 1`) the light-side slice `vertices[camera..]` is walked forward
with the product reset to 1. -/
def weight (p : Path) : ℚ :=
  let a1 := weightLoop (1, 0) (p.vertices.take p.technique.camera).reverse
  let a2 :=
    if 1 ≤ p.technique.light then
      weightLoop (1, a1.2) (p.vertices.drop p.technique.camera)
    else a1
  1 / (1 + a2.2)

/-- `Path::contribution` (src/path.rs, lines 470-493). -/
def contribution (p : Path) : Contribution :=
  if p.pdf = 0 then Contribution.empty
  else if p.throughput.isBlack then Contribution.empty
  else if p.weight = 0 then Contribution.empty
  else
    let c := (p.throughput.smul p.weight).divScalar p.pdf
    { scalar := c.luminance, spectrum := c, pixelCoordinates := p.pixelCoordinates }

end Path

/-! ### Auxiliary definitions used by the claim statements -/

/-- The unit draws fed by `test_technique_sample` (src/path.rs, lines
540-558) through `MockSampler`, and the `camera` values the test expects. -/
def c1TestDraws : List ℚ := [0, 1/2, 99/100]

instance : Inhabited Vertex := ⟨⟨Spectrum.black, none, none⟩⟩

/-- Fold of the per-ratio accumulation step over a plain list of ratios:
state `(product, sum)` becomes `(product * r, sum + product * r)`. -/
def ratioFold (acc : ℚ × ℚ) (rs : List ℚ) : ℚ × ℚ :=
  rs.foldl (fun a r => (a.1 * r, a.2 + a.1 * r)) acc

/-- The spec's "sum of running products" of a list of ratios:
`r₁ + r₁r₂ + r₁r₂r₃ + ⋯`. -/
def runningProdSum : List ℚ → ℚ
  | [] => 0
  | r :: rs => r + r * runningProdSum rs

/-- The per-vertex ratio mandated by C3's literal wording: a vertex whose
forward **or** reverse density is undefined contributes no term (only
vertices with both densities defined contribute `reverse/forward`).
Modelled from the spec sentence, for comparison with `Vertex.weight`. -/
def Vertex.bothDefinedWeight (v : Vertex) : Option ℚ :=
  match v.forward_pdf, v.reverse_pdf with
  | some f, some r => some (r / f)
  | _, _ => none

/-- The weight C3's literal wording prescribes: both sums skip every vertex
with at least one undefined density. -/
def claimC3Weight (p : Path) : ℚ :=
  1 / (1 +
    runningProdSum
      (((p.vertices.take p.technique.camera).reverse).filterMap Vertex.bothDefinedWeight) +
    runningProdSum
      ((p.vertices.drop p.technique.camera).filterMap Vertex.bothDefinedWeight))

/-- A two-vertex path, technique `(1,1)`: the camera vertex has only a
forward density (2), the light vertex only a reverse density (3). -/
def c3Path : Path :=
  { vertices :=
      [{ throughput := Spectrum.fill 1, forward_pdf := some 2, reverse_pdf := none },
       { throughput := Spectrum.fill 1, forward_pdf := none, reverse_pdf := some 3 }],
    technique := { camera := 1, light := 1 },
    pixelCoordinates := ⟨0, 0⟩ }

/-- Interior (non-endpoint) vertices of the path are all Dirac: both
densities absent. -/
def interiorDirac (p : Path) : Prop :=
  ∀ i, i < p.vertices.length → 0 < i → i + 1 < p.vertices.length →
    (p.vertices.getD i default).forward_pdf = none ∧
    (p.vertices.getD i default).reverse_pdf = none

instance (p : Path) : Decidable (interiorDirac p) := by
  unfold interiorDirac; infer_instance

/-- A four-vertex path, technique `(2,2)`: both interior vertices are
Dirac, both endpoints have forward and reverse densities equal to 1. -/
def c8Path : Path :=
  { vertices :=
      [{ throughput := Spectrum.fill 1, forward_pdf := some 1, reverse_pdf := some 1 },
       { throughput := Spectrum.fill 1, forward_pdf := none, reverse_pdf := none },
       { throughput := Spectrum.fill 1, forward_pdf := none, reverse_pdf := none },
       { throughput := Spectrum.fill 1, forward_pdf := some 1, reverse_pdf := some 1 }],
    technique := { camera := 2, light := 2 },
    pixelCoordinates := ⟨0, 0⟩ }

/-- `MutationType` (src/sampler.rs, lines 51-55). -/
inductive MutationType where
  | LargeStep : MutationType
  | SmallStep : MutationType
deriving DecidableEq, Repr

/-- `Pdf` (src/pdf.rs, lines 3-7). -/
structure Pdf where
  pdf : List ℚ
  cdf : List ℚ
deriving DecidableEq, Repr

/-- `Pdf::new` (src/pdf.rs, lines 10-22): `cdf[k]` is the running sum of
`h` up to index `k`, and both vectors are then divided by the final
running sum `cdf[len-1] = h.sum`.  (`Pdf::new` reads `cdf[0]`, so Rust
panics on an empty `h`; this embedding yields empty vectors there.) -/
def Pdf.new (h : List ℚ) : Pdf :=
  let sums := (List.range h.length).map (fun k => (h.take (k + 1)).sum)
  let total := h.sum
  { pdf := h.map (· / total), cdf := sums.map (· / total) }

/-- `Pdf::value` (src/pdf.rs, lines 24-26); an out-of-range index panics in
Rust and yields the junk value 0 here. -/
def Pdf.value (p : Pdf) (i : ℕ) : ℚ := p.pdf.getD i 0

/-- The `step_factor` of the run loop (src/integrator.rs, lines 82-85);
the spec calls it `step_bonus`: 1 for a large step, 0 for a small step. -/
def stepBonus : MutationType → ℚ
  | MutationType.LargeStep => 1
  | MutationType.SmallStep => 0

/-- What one run-loop iteration produces: the deposits made into the image
(spectrum and pixel coordinates, in deposit order), whether the proposal
was accepted, and the new current contribution of chain `k`. -/
structure IterationOutput where
  deposits : List (Spectrum × Point2)
  accepted : Bool
  current : Contribution
deriving DecidableEq, Repr

/-- One iteration of the Metropolis run loop after the proposal has been
generated (src/integrator.rs, lines 76-106).  `k` is the chain index drawn
from `pdf` (the path length of chain `k` is `k + 2`), `b` is the bootstrap
vector, `mutationType` is what `sampler.mutate()` returned,
`largeStepProbability` is the sampler field read at lines 89 and 96,
`proposal` is `Path::contribute(scene, sampler, k + 2)` for the mutated
sampler, and `acceptDraw` the uniform value drawn at line 101. -/
def integratorIteration (k : ℕ) (pdf : Pdf) (b : List ℚ)
    (largeStepProbability : ℚ) (mutationType : MutationType)
    (current proposal : Contribution) (acceptDraw : ℚ) : IterationOutput :=
  let a := Contribution.acceptance current proposal
  let stepFactor := stepBonus mutationType
  let proposalDeposits :=
    if ¬ proposal.isEmpty then
      [(proposal.spectrum.smul ((((k : ℚ) + 2) / pdf.value k) * (a + stepFactor) /
          (proposal.scalar / b.getD k 0 + largeStepProbability)),
        proposal.pixelCoordinates)]
    else []
  let currentDeposits :=
    if ¬ current.isEmpty then
      [(current.spectrum.smul ((((k : ℚ) + 2) / pdf.value k) * (1 - a) /
          (current.scalar / b.getD k 0 + largeStepProbability)),
        current.pixelCoordinates)]
    else []
  if acceptDraw ≤ a then
    { deposits := proposalDeposits ++ currentDeposits, accepted := true,
      current := proposal }
  else
    { deposits := proposalDeposits ++ currentDeposits, accepted := false,
      current := current }

/-- The proposal-deposit scale C4's literal wording prescribes:
`((k+1) / pdf_length(k)) * (a + step_bonus) / (scalar/b[k] +
large_step_probability)`.  Modelled from the claim, for comparison with
the `(k+2)` numerator the code uses. -/
def claimC4Weight (k : ℕ) (pdfValue bk lsp a sf scalar : ℚ) : ℚ :=
  (((k : ℚ) + 1) / pdfValue) * (a + sf) / (scalar / bk + lsp)

/-- A non-empty proposal contribution used in concrete run-loop instances. -/
def c4Proposal : Contribution :=
  { scalar := 1, spectrum := Spectrum.fill 1, pixelCoordinates := ⟨3, 4⟩ }

/-- A non-empty current contribution used in concrete run-loop instances. -/
def c4Current : Contribution :=
  { scalar := 2, spectrum := Spectrum.fill 2, pixelCoordinates := ⟨5, 6⟩ }

/-- A one-vertex path whose single forward density is 0, so `Path::pdf`
vanishes while the throughput is large. -/
def c5Path : Path :=
  { vertices :=
      [{ throughput := Spectrum.fill 5, forward_pdf := some 0, reverse_pdf := none }],
    technique := { camera := 1, light := 0 },
    pixelCoordinates := ⟨7, 8⟩ }

/-- A model of an `f64` value that keeps track of NaN: a finite rational
value or NaN.  (Signed infinities are not modelled; no claim involves
them.) -/
inductive MFloat where
  | nan : MFloat
  | val : ℚ → MFloat
deriving DecidableEq, Repr

namespace MFloat

/-- `f64` addition: NaN-absorbing. -/
def add : MFloat → MFloat → MFloat
  | val a, val b => val (a + b)
  | _, _ => nan

/-- `f64` multiplication: NaN-absorbing. -/
def mul : MFloat → MFloat → MFloat
  | val a, val b => val (a * b)
  | _, _ => nan

/-- Clamping a component against a finite bound; NaN stays NaN. -/
def clampVal : MFloat → ℚ → MFloat
  | val a, bound => val (min a bound)
  | nan, _ => nan

end MFloat

/-- The pixel spectrum stored by the image accumulator: `RgbSpectrum` with
NaN-aware components (src/spectrum.rs, lines 13-18). -/
structure MSpectrum where
  r : MFloat
  g : MFloat
  b : MFloat
deriving DecidableEq, Repr

namespace MSpectrum

/-- `RgbSpectrum::black` as stored in the accumulator. -/
def black : MSpectrum := ⟨MFloat.val 0, MFloat.val 0, MFloat.val 0⟩

/-- `RgbSpectrum::has_nans` (src/spectrum.rs, lines 57-59). -/
def hasNaNs (s : MSpectrum) : Prop :=
  s.r = MFloat.nan ∨ s.g = MFloat.nan ∨ s.b = MFloat.nan

instance (s : MSpectrum) : Decidable s.hasNaNs :=
  inferInstanceAs (Decidable (_ ∨ _ ∨ _))

/-- `impl Add for RgbSpectrum` (src/spectrum.rs, line 62), NaN-aware. -/
def add (s t : MSpectrum) : MSpectrum :=
  ⟨s.r.add t.r, s.g.add t.g, s.b.add t.b⟩

/-- `impl Mul<RgbSpectrum> for f64` (src/spectrum.rs, line 84), NaN-aware:
`weight * spectrum`. -/
def wmul (w : MFloat) (s : MSpectrum) : MSpectrum :=
  ⟨w.mul s.r, w.mul s.g, w.mul s.b⟩

/-- `impl Mul<f64> for RgbSpectrum` (src/spectrum.rs, line 73), NaN-aware:
`spectrum * scalar`. -/
def smulVal (s : MSpectrum) (c : ℚ) : MSpectrum :=
  ⟨s.r.mul (MFloat.val c), s.g.mul (MFloat.val c), s.b.mul (MFloat.val c)⟩

/-- Modelled from the spec: `RgbSpectrum::try_clamp` is called by
`Image::contribute` (src/image.rs, lines 65-66) but its definition is
missing from src/spectrum.rs.  Per its name and call sites it clamps each
component against the configured bound when one is given
(`sample_clamp`/`clamp` are `Option<f64>`) and is the identity otherwise.
Only the fact that it maps finite components to finite components matters
to the claims. -/
def tryClamp (s : MSpectrum) (c : Option ℚ) : MSpectrum :=
  match c with
  | none => s
  | some bound => ⟨s.r.clampVal bound, s.g.clampVal bound, s.b.clampVal bound⟩

end MSpectrum

/-- The `Filter` capability (src/image.rs, lines 184-187): a radius and a
point evaluation.  Both concrete filters — `BoxFilter`, and
`GaussianFilter` built from `exp` — are total real-valued functions, so
the evaluation is modelled as producing a finite value. -/
structure Filter where
  radius : Point2
  evaluate : Point2 → ℚ

/-- `BoxFilter` (src/image.rs, lines 220-236): zero radius, constant
evaluation 1. -/
def boxFilter : Filter := { radius := ⟨0, 0⟩, evaluate := fun _ => 1 }

/-- Rust's `as usize` cast of a finite `f64`: truncation toward zero,
saturating at 0 for negative values. -/
def ratToUsize (q : ℚ) : ℕ := (⌊q⌋).toNat

/-- The inclusive range `lo..=hi` of a Rust `for` loop. -/
def inclusiveRange (lo hi : ℕ) : List ℕ := (List.range (hi + 1)).drop lo

/-- `Image` (src/image.rs, lines 15-22). -/
structure Image where
  pixels : List MSpectrum
  width : ℕ
  height : ℕ
  filter : Filter
  sampleClamp : Option ℚ
  clamp : Option ℚ

namespace Image

/-- `Image::new` (src/image.rs, lines 35-50). -/
def new (width height : ℕ) (filter : Filter) (sampleClamp clamp : Option ℚ) :
    Image :=
  { pixels := List.replicate (width * height) MSpectrum.black,
    width := width, height := height, filter := filter,
    sampleClamp := sampleClamp, clamp := clamp }

/-- The body of the filter-window loop of `Image::contribute`
(src/image.rs, lines 61-67): update pixel `(x, y)`. -/
def depositPixel (filter : Filter) (sampleClamp clamp : Option ℚ)
    (width : ℕ) (spectrum : MSpectrum) (coordinates : Point2)
    (pixels : List MSpectrum) (xy : ℕ × ℕ) : List MSpectrum :=
  let i := xy.2 * width + xy.1
  let p : Point2 := ⟨(xy.1 : ℚ), (xy.2 : ℚ)⟩
  let weight := filter.evaluate ⟨coordinates.x - p.x, coordinates.y - p.y⟩
  let updated := (pixels.getD i MSpectrum.black).add
    (MSpectrum.wmul (MFloat.val weight) (spectrum.tryClamp sampleClamp))
  pixels.set i (updated.tryClamp clamp)

/-- `Image::contribute` (src/image.rs, lines 52-72): spectra containing a
NaN are rejected; otherwise every pixel in the filter window around the
coordinates is updated.  The pixel coordinates themselves are modelled as
finite (they come from the camera's pixel grid). -/
def contribute (img : Image) (spectrum : MSpectrum) (coordinates : Point2) :
    Image :=
  if ¬ spectrum.hasNaNs then
    let radius := img.filter.radius
    let minX := ratToUsize (coordinates.x - radius.x)
    let maxX := min (img.width - 1) (ratToUsize (coordinates.x + radius.x))
    let minY := ratToUsize (coordinates.y - radius.y)
    let maxY := min (img.height - 1) (ratToUsize (coordinates.y + radius.y))
    let window :=
      (inclusiveRange minY maxY).flatMap
        (fun y => (inclusiveRange minX maxX).map (fun x => (x, y)))
    { img with
      pixels := window.foldl
        (depositPixel img.filter img.sampleClamp img.clamp img.width
          spectrum coordinates)
        img.pixels }
  else img

/-- `Image::scale` (src/image.rs, lines 145-149). -/
def scale (img : Image) (s : ℚ) : Image :=
  { img with pixels := img.pixels.map (fun p => p.smulVal s) }

end Image

/-- A 1x1 image with a box filter and no clamping. -/
def c6Image : Image := Image.new 1 1 boxFilter none none

/-- A spectrum whose red channel is NaN. -/
def c6NaNSpectrum : MSpectrum := ⟨MFloat.nan, MFloat.val 0, MFloat.val 0⟩

/-- A one-vertex path whose forward density is 0: `pdf() = 0` with a
non-black throughput. -/
def c6Path : Path :=
  { vertices :=
      [{ throughput := Spectrum.fill 9, forward_pdf := some 0, reverse_pdf := none }],
    technique := { camera := 1, light := 0 },
    pixelCoordinates := ⟨1, 2⟩ }

/-- `Vector3` (src/vector.rs, lines 15-20), components over ℝ. -/
structure Vector3 where
  x : ℝ
  y : ℝ
  z : ℝ

namespace Vector3

/-- `Vector3::dot` (src/vector.rs, lines 35-37). -/
def dot (v w : Vector3) : ℝ := v.x * w.x + v.y * w.y + v.z * w.z

/-- `impl Neg for Vector3` (src/vector.rs): componentwise negation. -/
def neg (v : Vector3) : Vector3 := ⟨-v.x, -v.y, -v.z⟩

end Vector3

/-- `geometry_term` (src/util.rs, lines 11-15). -/
noncomputable def geometry_term (direction normal1 normal2 : Vector3) : ℝ :=
  let d2 := direction.dot direction
  let x := normal1.dot direction * normal2.dot direction / (d2 * d2)
  |x|

/-- `direction_to_area` (src/util.rs, lines 5-9). -/
noncomputable def direction_to_area (direction normal : Vector3) : ℝ :=
  let d2 := direction.dot direction
  let x := normal.dot direction / (d2 * Real.sqrt d2)
  |x|

/-- `erf_inv` (src/util.rs, lines 17-45): the two-branch polynomial
approximation of the inverse error function.  `f64::clamp(x, lo, hi)` is
`max lo (min hi x)`. -/
noncomputable def erf_inv (x : ℝ) : ℝ :=
  let x := max (-0.99999) (min 0.99999 x)
  let w := -Real.log ((1 - x) * (1 + x))
  if w < 5 then
    let w := w - 2.5
    let p : ℝ := 2.81022636e-08
    let p := 3.43273939e-07 + p * w
    let p := -3.5233877e-06 + p * w
    let p := -4.39150654e-06 + p * w
    let p := 0.00021858087 + p * w
    let p := -0.00125372503 + p * w
    let p := -0.00417768164 + p * w
    let p := 0.246640727 + p * w
    let p := 1.50140941 + p * w
    p * x
  else
    let w := Real.sqrt w - 3
    let p : ℝ := -0.000200214257
    let p := 0.000100950558 + p * w
    let p := 0.00134934322 + p * w
    let p := -0.00367342844 + p * w
    let p := 0.00573950773 + p * w
    let p := -0.0076224613 + p * w
    let p := 0.00943887047 + p * w
    let p := 1.00167406 + p * w
    let p := 2.83297682 + p * w
    p * x

/-- `Sample` (src/sampler.rs, lines 23-28): one primary-sample-space
coordinate with its transaction log. -/
structure Sample where
  value : ℝ
  backup_value : ℝ
  modified_at : ℕ
  backup_modified_at : ℕ

namespace Sample

/-- `Sample::new` (src/sampler.rs, lines 31-38). -/
def new (value : ℝ) : Sample :=
  { value := value, backup_value := value, modified_at := 0,
    backup_modified_at := 0 }

/-- `Sample::backup` (src/sampler.rs, lines 40-43). -/
def backup (s : Sample) : Sample :=
  { s with backup_value := s.value, backup_modified_at := s.modified_at }

/-- `Sample::restore` (src/sampler.rs, lines 45-48). -/
def restore (s : Sample) : Sample :=
  { s with value := s.backup_value, modified_at := s.backup_modified_at }

end Sample

/-- `MmltSampler` (src/sampler.rs, lines 10-21).  The boxed `thread_rng` is
modelled by a fixed stream `rng : ℕ → ℝ` and the cursor `rngPos`: the
`n`-th call of `gen_range(0.0..1.0)` since construction returns `rng n`. -/
structure MmltSampler where
  large_step_probability : ℝ
  sigma : ℝ
  stream_count : ℕ
  stream_index : ℕ
  sample_index : ℕ
  samples : List Sample
  iteration : ℕ
  large_step_at : ℕ
  mutation_type : MutationType
  rng : ℕ → ℝ
  rngPos : ℕ

namespace MmltSampler

/-- `MmltSampler::new` (src/sampler.rs, lines 58-71). -/
def new (streamCount : ℕ) (rng : ℕ → ℝ) : MmltSampler :=
  { large_step_probability := 0.3, sigma := 0.01,
    stream_count := streamCount, stream_index := 0, sample_index := 0,
    samples := [], iteration := 0, large_step_at := 0,
    mutation_type := MutationType.SmallStep, rng := rng, rngPos := 0 }

/-- `MmltSampler::mutate` (src/sampler.rs, lines 73-82). -/
noncomputable def mutate (s0 : MmltSampler) : MutationType × MmltSampler :=
  let s := { s0 with iteration := s0.iteration + 1 }
  let r := s.rng s.rngPos
  let mt :=
    if r < s.large_step_probability then MutationType.LargeStep
    else MutationType.SmallStep
  (mt, { s with mutation_type := mt, rngPos := s.rngPos + 1 })

/-- `MmltSampler::accept` (src/sampler.rs, lines 84-88). -/
def accept (s : MmltSampler) : MmltSampler :=
  if s.mutation_type = MutationType.LargeStep then
    { s with large_step_at := s.iteration }
  else s

/-- `MmltSampler::reject` (src/sampler.rs, lines 90-97): restore every
sample modified at the current iteration and roll the iteration counter
back. -/
def reject (s : MmltSampler) : MmltSampler :=
  { s with
    samples := s.samples.map
      (fun smp => if smp.modified_at = s.iteration then smp.restore else smp),
    iteration := s.iteration - 1 }

/-- `Sampler::start_stream` for `MmltSampler` (src/sampler.rs, lines
101-107): an out-of-range index panics (`none` here). -/
def startStream (s : MmltSampler) (index : ℕ) : Option MmltSampler :=
  if index < s.stream_count then
    some { s with stream_index := index, sample_index := 0 }
  else none

/-- The `while index >= self.samples.len()` loop of `sample`
(src/sampler.rs, lines 112-116): it pushes exactly
`index + 1 - samples.len()` fresh samples, each initialised from one rng
draw, in draw order. -/
def growSamples (s : MmltSampler) (index : ℕ) : MmltSampler :=
  let k := index + 1 - s.samples.length
  { s with
    samples := s.samples ++
      (List.range k).map (fun j => Sample.new (s.rng (s.rngPos + j))),
    rngPos := s.rngPos + k }

/-- The lazy large-step catch-up of `sample` (src/sampler.rs, lines
120-123), acting on the drawn sample and the sampler state. -/
def catchUp (p : Sample × MmltSampler) : Sample × MmltSampler :=
  if p.1.modified_at < p.2.large_step_at then
    ({ p.1 with value := p.2.rng p.2.rngPos,
                modified_at := p.2.large_step_at },
     { p.2 with rngPos := p.2.rngPos + 1 })
  else p

/-- The `match self.mutation_type` block of `sample` (src/sampler.rs,
lines 127-137): perturb the drawn sample (small step) or redraw it
independently (large step). -/
noncomputable def mutateSample (p : Sample × MmltSampler) :
    Sample × MmltSampler :=
  match p.2.mutation_type with
  | MutationType.SmallStep =>
      let u := p.2.rng p.2.rngPos
      let n : ℝ := ((p.2.iteration - p.1.modified_at : ℕ) : ℝ)
      let normalValue := Real.sqrt 2 * erf_inv (2 * u - 1)
      let effectiveSigma := p.2.sigma * Real.sqrt n
      let v := p.1.value + normalValue * effectiveSigma
      ({ p.1 with value := v - ⌊v⌋ }, { p.2 with rngPos := p.2.rngPos + 1 })
  | MutationType.LargeStep =>
      ({ p.1 with value := p.2.rng p.2.rngPos },
       { p.2 with rngPos := p.2.rngPos + 1 })

/-- The coordinate index drawn by the next `sample` call (src/sampler.rs,
line 110): `stream_count * sample_index + stream_index`. -/
def nextIndex (s : MmltSampler) : ℕ :=
  s.stream_count * s.sample_index + s.stream_index

/-- `Sampler::sample` for `MmltSampler` (src/sampler.rs, lines 109-144):
grow the sample vector up to the drawn index, lazily catch up with the
last accepted large step, back the sample up, mutate it, stamp it with the
current iteration, store it, and scale it into the requested range.  (The
`getD` default is never used: after `growSamples` the index is in
bounds.) -/
noncomputable def sample (s0 : MmltSampler) (lo hi : ℝ) : ℝ × MmltSampler :=
  let index := nextIndex s0
  let s1 := growSamples s0 index
  let p1 := catchUp (s1.samples.getD index (Sample.new 0), s1)
  let p2 := mutateSample (p1.1.backup, p1.2)
  let smp := { p2.1 with modified_at := p2.2.iteration }
  let s2 := { p2.2 with samples := p2.2.samples.set index smp,
                        sample_index := p2.2.sample_index + 1 }
  (smp.value * (hi - lo) + lo, s2)

end MmltSampler

/-- One call against the `Sampler` interface of `MmltSampler`. -/
inductive SamplerOp where
  | startStream (index : ℕ) : SamplerOp
  | mutate : SamplerOp
  | accept : SamplerOp
  | reject : SamplerOp
  | sample (lo hi : ℝ) : SamplerOp

/-- Apply one call; `start_stream` with an out-of-range index panics
(`none`). -/
noncomputable def applyOp (s : MmltSampler) : SamplerOp → Option MmltSampler
  | SamplerOp.startStream i => s.startStream i
  | SamplerOp.mutate => some s.mutate.2
  | SamplerOp.accept => some s.accept
  | SamplerOp.reject => some s.reject
  | SamplerOp.sample lo hi => some (s.sample lo hi).2

/-- Run a sequence of sampler calls. -/
noncomputable def runOps (s : MmltSampler) : List SamplerOp → Option MmltSampler
  | [] => some s
  | op :: ops => (applyOp s op).bind (fun t => runOps t ops)

/-- Every stored coordinate (and its backup) lies in `[0,1)`. -/
def valuesInUnit (s : MmltSampler) : Prop :=
  ∀ smp ∈ s.samples,
    (0 ≤ smp.value ∧ smp.value < 1) ∧
    (0 ≤ smp.backup_value ∧ smp.backup_value < 1)

/-- The rng stream only produces values in `[0,1)`, as
`gen_range(0.0..1.0)` does. -/
def rngInUnit (s : MmltSampler) : Prop :=
  ∀ n, 0 ≤ s.rng n ∧ s.rng n < 1

/-- Iterating `sample` over a list of ranges, as the path builder does
between `mutate()` and `accept()`/`reject()`. -/
noncomputable def sampleCalls (s : MmltSampler) : List (ℝ × ℝ) → MmltSampler
  | [] => s
  | r :: rs => sampleCalls (s.sample r.1 r.2).2 rs

/-- The fixed rng stream of the C2 counterexample run. -/
noncomputable def c2Rng : ℕ → ℝ := fun n =>
  if n = 0 then 1/3
  else if n = 1 then 1/2
  else if n = 2 then 1/10
  else if n = 3 then 1/2
  else if n = 4 then 3/4
  else 1/2

/-- The counterexample sampler just after
`new(1); sample(0..1); mutate(); accept()`: the first mutation is a large
step (rng value `1/10 < 0.3`), so `accept` sets `large_step_at = 1`;
coordinate 0 was last touched at iteration 0 with value `1/3`. -/
noncomputable def c2AfterAccept : MmltSampler :=
  (((MmltSampler.new 1 c2Rng).sample 0 1).2.mutate).2.accept

/-- The counterexample sampler after a further `start_stream(0)`:
the state immediately before the mutate-sample-reject window. -/
noncomputable def c2Pre : MmltSampler :=
  { c2AfterAccept with stream_index := 0, sample_index := 0 }

/-- The counterexample sampler after `mutate(); sample(0..1); reject()`:
the second mutation is a small step (rng value `1/2`), and the rejected
draw of coordinate 0 triggers the lazy large-step catch-up. -/
noncomputable def c2Post : MmltSampler :=
  ((c2Pre.mutate).2.sample 0 1).2.reject

/-- The fixed rng stream of the C10 witness run: one large-step mutation
(rng value `1/10`), one fresh creation (`1/2`), one large-step redraw
(`1/3`). -/
noncomputable def c10Rng : ℕ → ℝ := fun n =>
  if n = 0 then 1/10
  else if n = 1 then 1/2
  else if n = 2 then 1/3
  else 0

/-- Proof-internal relation between the pre-mutation sampler state `s0`
and a state `s` reached from it by `mutate()` followed by some `sample`
calls: the iteration advanced by one, nothing else global moved, and every
pre-existing coordinate is either untouched or was drawn during this
iteration — in which case its backup holds its pre-mutation data whenever
it was not lazily large-stepped (`modified_at ≥ large_step_at`). -/
def ReplayInv (s0 s : MmltSampler) : Prop :=
  s.iteration = s0.iteration + 1 ∧
  s.large_step_at = s0.large_step_at ∧
  s.stream_count = s0.stream_count ∧
  s0.samples.length ≤ s.samples.length ∧
  ∀ i, i < s0.samples.length →
    (s.samples.getD i (Sample.new 0) = s0.samples.getD i (Sample.new 0)) ∨
    (i < MmltSampler.nextIndex s ∧
     (s.samples.getD i (Sample.new 0)).modified_at = s.iteration ∧
     (s0.large_step_at ≤ (s0.samples.getD i (Sample.new 0)).modified_at →
       (s.samples.getD i (Sample.new 0)).backup_value =
         (s0.samples.getD i (Sample.new 0)).value ∧
       (s.samples.getD i (Sample.new 0)).backup_modified_at =
         (s0.samples.getD i (Sample.new 0)).modified_at))

/-- A concrete pre-mutation sampler state for the C2 witness: one stream,
one stored coordinate `1/2` last modified at iteration 0, no large step
yet. -/
noncomputable def c2WitnessState : MmltSampler :=
  ⟨0.3, 0.01, 1, 0, 0, [⟨1/2, 1/2, 0, 0⟩], 0, 0,
    MutationType.SmallStep, c2Rng, 0⟩

end Mmlt

namespace Mmlt

/-! ## C1: `Technique::sample` against its own unit test -/

/-- C1, code_bug evidence: at `path_length = 2` the code maps the unit
test's three draws `0`, `0.5`, `0.99` to `camera = 1, 2, 2`, while the
repository's own test `test_technique_sample` (src/path.rs, lines 540-558)
expects `0, 1, 2`; `camera_count = 0` is unreachable because
`sampler.sample(1.0..end)` starts the range at `1.0`, so the choice is not
uniform over `[0, path_length]` as the claim states. -/
theorem technique_sample_contradicts_unit_test :
    (Technique.sample 2 0).camera = 1 ∧
    (Technique.sample 2 (1/2)).camera = 2 ∧
    (Technique.sample 2 (99/100)).camera = 2 ∧
    ¬ ((Technique.sample 2 0).camera = 0 ∧ (Technique.sample 2 (1/2)).camera = 1) := by
  norm_num [Technique.sample, Technique.scaleToRange]
  decide

/-! ## C7: the Metropolis acceptance ratio -/

/-- C7: whenever `current.scalar > 0`, `Contribution::acceptance` equals
`clamp(proposal.scalar / current.scalar, 0, 1)` and lies in `[0,1]`; when
`current.scalar = 0` it equals `1`. -/
theorem acceptance_clamped (current proposal : Contribution) :
    (current.scalar > 0 →
      Contribution.acceptance current proposal =
        clamp01 (proposal.scalar / current.scalar) ∧
      0 ≤ Contribution.acceptance current proposal ∧
      Contribution.acceptance current proposal ≤ 1) ∧
    (current.scalar = 0 → Contribution.acceptance current proposal = 1) := by
  constructor
  · intro h
    have hacc : Contribution.acceptance current proposal =
        max (min 1 (proposal.scalar / current.scalar)) 0 := by
      simp [Contribution.acceptance, h]
    refine ⟨?_, ?_, ?_⟩
    · rw [hacc]
      rcases le_total (proposal.scalar / current.scalar) 0 with h0 | h0
      · simp [clamp01, min_eq_right (h0.trans zero_le_one), max_eq_left h0,
          max_eq_right h0]
      · rcases le_total (proposal.scalar / current.scalar) 1 with h1 | h1
        · simp [clamp01, min_eq_right h1, max_eq_left h0, max_eq_right h0]
        · simp [clamp01, min_eq_left h1, max_eq_right h0,
            max_eq_left (zero_le_one.trans h1), min_eq_left h1]
    · rw [hacc]; exact le_max_right _ _
    · rw [hacc]
      exact max_le (min_le_left _ _) zero_le_one
  · intro h
    simp [Contribution.acceptance, h]

/-! ## C3 / C8: the balance-heuristic MIS weight -/

/-- `runningProdSum` is the sum over all nonempty prefixes of the product of
that prefix. -/
theorem runningProdSum_eq_sum_take (rs : List ℚ) :
    runningProdSum rs =
      ((List.range rs.length).map (fun i => (rs.take (i + 1)).prod)).sum := by
  induction rs with
  | nil => simp [runningProdSum]
  | cons r t ih =>
      rw [runningProdSum, ih, List.length_cons, List.range_succ_eq_map,
        List.map_cons, List.sum_cons, List.map_map]
      have hmap :
          ((fun i => ((r :: t).take (i + 1)).prod) ∘ Nat.succ) =
            fun i => r * ((t.take (i + 1)).prod) := by
        funext i
        simp [Function.comp, List.take_succ_cons]
      rw [hmap, List.sum_map_mul_left]
      simp

theorem weightLoop_eq_ratioFold (vs : List Vertex) (acc : ℚ × ℚ) :
    Path.weightLoop acc vs = ratioFold acc (vs.filterMap Vertex.weight) := by
  induction vs generalizing acc with
  | nil => rfl
  | cons v t ih =>
      cases hv : v.weight with
      | none =>
          simp only [Path.weightLoop, List.foldl_cons, hv, List.filterMap_cons]
          exact ih acc
      | some w =>
          simp only [Path.weightLoop, List.foldl_cons, hv, List.filterMap_cons,
            ratioFold]
          exact ih _

theorem ratioFold_eq (rs : List ℚ) (p0 s0 : ℚ) :
    ratioFold (p0, s0) rs = (p0 * rs.prod, s0 + p0 * runningProdSum rs) := by
  induction rs generalizing p0 s0 with
  | nil => simp [ratioFold, runningProdSum]
  | cons r t ih =>
      simp only [ratioFold, List.foldl_cons] at ih ⊢
      rw [ih (p0 * r) (s0 + p0 * r)]
      simp only [runningProdSum, List.prod_cons, Prod.mk.injEq]
      constructor
      · ring
      · ring

/-- C3 (amended): `Path::weight` equals
`1 / (1 + sum_camera_side + sum_light_side)` where each sum is the sum of
running products of the per-vertex `Vertex::weight` ratios, and a vertex is
skipped exactly when `Vertex::weight` is `None`, i.e. when both its
densities are absent or its forward density is zero (a vertex with exactly
one absent density substitutes `1` for the missing side and does contribute
a term). -/
theorem weight_eq_inv_one_add_sums (p : Path)
    (hlen : p.vertices.length = p.technique.camera + p.technique.light) :
    p.weight =
      1 / (1 +
        runningProdSum
          (((p.vertices.take p.technique.camera).reverse).filterMap Vertex.weight) +
        runningProdSum
          ((p.vertices.drop p.technique.camera).filterMap Vertex.weight)) := by
  unfold Path.weight
  rw [weightLoop_eq_ratioFold, ratioFold_eq]
  by_cases hl : 1 ≤ p.technique.light
  · simp only [hl, if_true]
    rw [weightLoop_eq_ratioFold, ratioFold_eq]
    ring_nf
  · have hl0 : p.technique.light = 0 := by omega
    have hdrop : p.vertices.drop p.technique.camera = [] := by
      apply List.drop_eq_nil_of_le
      omega
    simp [hl0, hdrop, runningProdSum]

/-- Witness for C3 (amended) on a two-vertex path with technique `(1,1)`
whose vertices each have exactly one density defined. -/
theorem weight_eq_inv_one_add_sums_witness :
    (Path.weight
        { vertices :=
            [{ throughput := Spectrum.fill 1, forward_pdf := some 2, reverse_pdf := none },
             { throughput := Spectrum.fill 1, forward_pdf := none, reverse_pdf := some 3 }],
          technique := { camera := 1, light := 1 },
          pixelCoordinates := ⟨0, 0⟩ } =
      1 / (1 +
        runningProdSum
          ((([{ throughput := Spectrum.fill 1, forward_pdf := some 2, reverse_pdf := none },
              { throughput := Spectrum.fill 1, forward_pdf := none, reverse_pdf := some 3 }].take 1).reverse).filterMap
            Vertex.weight) +
        runningProdSum
          (([{ throughput := Spectrum.fill 1, forward_pdf := some 2, reverse_pdf := none },
             { throughput := Spectrum.fill 1, forward_pdf := none, reverse_pdf := some 3 }].drop 1).filterMap
            Vertex.weight))) := by
  exact weight_eq_inv_one_add_sums
    { vertices :=
        [{ throughput := Spectrum.fill 1, forward_pdf := some 2, reverse_pdf := none },
         { throughput := Spectrum.fill 1, forward_pdf := none, reverse_pdf := some 3 }],
      technique := { camera := 1, light := 1 },
      pixelCoordinates := ⟨0, 0⟩ }
    (by decide)

/-- C3 counterexample: on `c3Path` the code's `Path::weight` is `2/9` —
the camera vertex contributes `1/2` (missing reverse density treated as 1)
and the light vertex contributes `3` (missing forward density treated as
1) — whereas the claim's rule "a vertex whose forward or reverse pdf is
undefined contributes no term" would make both sums empty and give `1`. -/
theorem weight_counts_half_defined_vertices :
    c3Path.weight = 2 / 9 ∧ claimC3Weight c3Path = 1 ∧
    c3Path.weight ≠ claimC3Weight c3Path := by
  have h1 : c3Path.weight = 2 / 9 := by
    norm_num [c3Path, Path.weight, Path.weightLoop, Vertex.weight, Option.some_ne_none]
  have h2 : claimC3Weight c3Path = 1 := by
    norm_num [c3Path, claimC3Weight, Vertex.bothDefinedWeight, runningProdSum]
  refine ⟨h1, h2, ?_⟩
  rw [h1, h2]
  norm_num

/-- C8 counterexample: `c8Path` has only Dirac interior vertices, yet
`Path::weight` is `1/3`, not `1`: the two endpoint vertices have defined
densities and each contributes a ratio of `1` to the sums. -/
theorem dirac_interior_weight_ne_one :
    interiorDirac c8Path ∧ c8Path.weight = 1 / 3 ∧ c8Path.weight ≠ 1 := by
  have h1 : c8Path.weight = 1 / 3 := by
    norm_num [c8Path, Path.weight, Path.weightLoop, Vertex.weight, Option.some_ne_none]
  refine ⟨by decide, h1, ?_⟩
  rw [h1]
  norm_num

theorem weightLoop_skips_all_none (vs : List Vertex) (acc : ℚ × ℚ)
    (h : ∀ v ∈ vs, v.weight = none) : Path.weightLoop acc vs = acc := by
  induction vs generalizing acc with
  | nil => rfl
  | cons v t ih =>
      simp only [Path.weightLoop, List.foldl_cons, h v (by simp)]
      exact ih acc fun u hu => h u (by simp [hu])

/-- C8 (amended): if **every** vertex of the path — endpoints included —
is Dirac (both `forward_pdf` and `reverse_pdf` absent), then
`Path::weight() = 1`: every vertex is skipped, both sums are empty. -/
theorem weight_eq_one_of_all_dirac (p : Path)
    (h : ∀ v ∈ p.vertices, v.forward_pdf = none ∧ v.reverse_pdf = none) :
    p.weight = 1 := by
  have hw : ∀ v ∈ p.vertices, v.weight = none := by
    intro v hv
    simp [Vertex.weight, (h v hv).1, (h v hv).2]
  unfold Path.weight
  rw [weightLoop_skips_all_none _ _
    (fun v hv => hw v (List.mem_of_mem_take (List.mem_reverse.mp hv)))]
  by_cases hl : 1 ≤ p.technique.light
  · simp only [hl, if_true]
    rw [weightLoop_skips_all_none _ _
      (fun v hv => hw v (List.mem_of_mem_drop hv))]
    norm_num
  · simp only [hl, if_false]
    norm_num

/-- Witness for C8 (amended) on a fully Dirac two-vertex path. -/
theorem weight_eq_one_of_all_dirac_witness :
    (Path.weight
        { vertices :=
            [{ throughput := Spectrum.fill 1, forward_pdf := none, reverse_pdf := none },
             { throughput := Spectrum.fill 1, forward_pdf := none, reverse_pdf := none }],
          technique := { camera := 1, light := 1 },
          pixelCoordinates := ⟨0, 0⟩ }) = 1 := by
  exact weight_eq_one_of_all_dirac
    { vertices :=
        [{ throughput := Spectrum.fill 1, forward_pdf := none, reverse_pdf := none },
         { throughput := Spectrum.fill 1, forward_pdf := none, reverse_pdf := none }],
      technique := { camera := 1, light := 1 },
      pixelCoordinates := ⟨0, 0⟩ }
    (by decide)

/-- Witness for C7 at `current.scalar = 2, proposal.scalar = 1` (clamped
branch) and at `current.scalar = 0` (degenerate branch). -/
theorem acceptance_clamped_witness :
    Contribution.acceptance
        { scalar := 2, spectrum := Spectrum.black, pixelCoordinates := ⟨0, 0⟩ }
        { scalar := 1, spectrum := Spectrum.black, pixelCoordinates := ⟨0, 0⟩ } =
      clamp01 ((1 : ℚ) / 2) ∧
    Contribution.acceptance
        { scalar := 0, spectrum := Spectrum.black, pixelCoordinates := ⟨0, 0⟩ }
        { scalar := 1, spectrum := Spectrum.black, pixelCoordinates := ⟨0, 0⟩ } = 1 := by
  constructor
  · exact ((acceptance_clamped
      { scalar := 2, spectrum := Spectrum.black, pixelCoordinates := ⟨0, 0⟩ }
      { scalar := 1, spectrum := Spectrum.black, pixelCoordinates := ⟨0, 0⟩ }).1
      (by norm_num)).1
  · exact (acceptance_clamped
      { scalar := 0, spectrum := Spectrum.black, pixelCoordinates := ⟨0, 0⟩ }
      { scalar := 1, spectrum := Spectrum.black, pixelCoordinates := ⟨0, 0⟩ }).2
      rfl

/-! ## C4 / C5: the Metropolis run loop's deposits -/

/-- C4 counterexample: with chain index `k = 0`, `pdf = Pdf::new([1])`
(so `pdf.value(0) = 1`), `b = [1]`, `large_step_probability = 3/10`, a
large step, an empty current contribution (so `a = 1`) and the proposal
`c4Proposal` (scalar 1), the code deposits
`spectrum * (((0+2)/1) * (1+1) / (1/1 + 3/10)) = spectrum * (40/13)`:
the numerator is the path length `k + 2`, not the claim's `k + 1`, which
would give `20/13`. -/
theorem run_loop_numerator_counterexample :
    (integratorIteration 0 (Pdf.new [1]) [1] (3/10) MutationType.LargeStep
        Contribution.empty c4Proposal (1/2)).deposits =
      [(Spectrum.fill (40/13), ⟨3, 4⟩)] ∧
    claimC4Weight 0 ((Pdf.new [1]).value 0) 1 (3/10)
        (Contribution.acceptance Contribution.empty c4Proposal)
        (stepBonus MutationType.LargeStep) c4Proposal.scalar = 20/13 ∧
    Spectrum.fill (40/13) ≠ Spectrum.fill (20/13) := by
  refine ⟨?_, ?_, ?_⟩
  · norm_num [integratorIteration, c4Proposal, Contribution.acceptance,
      Contribution.isEmpty, Contribution.empty, Spectrum.black, Pdf.new,
      Pdf.value, stepBonus, Spectrum.fill, Spectrum.smul]
  · norm_num [claimC4Weight, c4Proposal, Contribution.acceptance,
      Contribution.empty, Spectrum.black, Pdf.new, Pdf.value, stepBonus]
  · simp only [Spectrum.fill, Spectrum.mk.injEq]
    norm_num

/-- C4 (amended): in every run-loop iteration at chain index `k` (path
length `k + 2`), a non-empty proposal is deposited at its pixel with its
spectrum scaled by `((k+2)/pdf.value(k)) * (a + step_bonus) /
(proposal.scalar/b[k] + large_step_probability)`, and a non-empty current
contribution is deposited at its pixel with scale
`((k+2)/pdf.value(k)) * (1-a) / (current.scalar/b[k] +
large_step_probability)`, where `a` is the Metropolis acceptance ratio and
`step_bonus` is 1 for a large step, 0 for a small step. -/
theorem run_loop_deposit_weights (k : ℕ) (pdf : Pdf) (b : List ℚ)
    (lsp : ℚ) (mt : MutationType) (current proposal : Contribution)
    (draw : ℚ) :
    (¬ proposal.isEmpty →
      (proposal.spectrum.smul ((((k : ℚ) + 2) / pdf.value k) *
          (Contribution.acceptance current proposal + stepBonus mt) /
          (proposal.scalar / b.getD k 0 + lsp)),
        proposal.pixelCoordinates) ∈
        (integratorIteration k pdf b lsp mt current proposal draw).deposits) ∧
    (¬ current.isEmpty →
      (current.spectrum.smul ((((k : ℚ) + 2) / pdf.value k) *
          (1 - Contribution.acceptance current proposal) /
          (current.scalar / b.getD k 0 + lsp)),
        current.pixelCoordinates) ∈
        (integratorIteration k pdf b lsp mt current proposal draw).deposits) := by
  constructor
  · intro hp
    by_cases hd : draw ≤ Contribution.acceptance current proposal <;>
      simp [integratorIteration, hp, hd]
  · intro hc
    by_cases hd : draw ≤ Contribution.acceptance current proposal <;>
      by_cases hp : proposal.isEmpty <;>
        simp [integratorIteration, hp, hc, hd]

/-- Witness for C4 (amended) with both contributions non-empty. -/
theorem run_loop_deposit_weights_witness :
    (c4Proposal.spectrum.smul ((((0 : ℕ) : ℚ) + 2) / (Pdf.new [1]).value 0 *
        (Contribution.acceptance c4Current c4Proposal +
          stepBonus MutationType.SmallStep) /
        (c4Proposal.scalar / [(1 : ℚ)].getD 0 0 + 3/10)),
      c4Proposal.pixelCoordinates) ∈
      (integratorIteration 0 (Pdf.new [1]) [1] (3/10) MutationType.SmallStep
        c4Current c4Proposal (1/2)).deposits ∧
    (c4Current.spectrum.smul ((((0 : ℕ) : ℚ) + 2) / (Pdf.new [1]).value 0 *
        (1 - Contribution.acceptance c4Current c4Proposal) /
        (c4Current.scalar / [(1 : ℚ)].getD 0 0 + 3/10)),
      c4Current.pixelCoordinates) ∈
      (integratorIteration 0 (Pdf.new [1]) [1] (3/10) MutationType.SmallStep
        c4Current c4Proposal (1/2)).deposits := by
  constructor
  · exact (run_loop_deposit_weights 0 (Pdf.new [1]) [1] (3/10)
      MutationType.SmallStep c4Current c4Proposal (1/2)).1
      (by norm_num [Contribution.isEmpty, c4Proposal])
  · exact (run_loop_deposit_weights 0 (Pdf.new [1]) [1] (3/10)
      MutationType.SmallStep c4Current c4Proposal (1/2)).2
      (by norm_num [Contribution.isEmpty, c4Current])

/-- C5: a path with vanishing probability density yields the empty
contribution no matter its throughput, and every deposit the run loop
makes comes from a non-empty contribution (the proposal or the current
one): an empty contribution is never deposited into the image. -/
theorem empty_contribution_never_deposited :
    (∀ p : Path, p.pdf = 0 → p.contribution = Contribution.empty) ∧
    (∀ (k : ℕ) (pdf : Pdf) (b : List ℚ) (lsp : ℚ) (mt : MutationType)
        (current proposal : Contribution) (draw : ℚ),
      ∀ d ∈ (integratorIteration k pdf b lsp mt current proposal draw).deposits,
        (¬ proposal.isEmpty ∧ d.2 = proposal.pixelCoordinates) ∨
        (¬ current.isEmpty ∧ d.2 = current.pixelCoordinates)) := by
  constructor
  · intro p h
    simp [Path.contribution, h]
  · intro k pdf b lsp mt current proposal draw d hd
    by_cases hp : proposal.isEmpty <;>
      by_cases hc : current.isEmpty <;>
        by_cases hdr : draw ≤ Contribution.acceptance current proposal <;>
          simp [integratorIteration, hp, hc, hdr] at hd <;>
            first
              | (rcases hd with hd | hd
                 · exact Or.inl ⟨hp, by simp [hd]⟩
                 · exact Or.inr ⟨hc, by simp [hd]⟩)
              | exact Or.inl ⟨hp, by simp [hd]⟩
              | exact Or.inr ⟨hc, by simp [hd]⟩

/-- Witness for C5: `c5Path` has `pdf() = 0` and collapses to the empty
contribution, and a concrete run-loop deposit is traced back to the
non-empty proposal that produced it. -/
theorem empty_contribution_never_deposited_witness :
    c5Path.contribution = Contribution.empty ∧
    ((¬ c4Proposal.isEmpty ∧
        (Point2.mk 3 4) = c4Proposal.pixelCoordinates) ∨
      (¬ Contribution.empty.isEmpty ∧
        (Point2.mk 3 4) = Contribution.empty.pixelCoordinates)) := by
  constructor
  · exact empty_contribution_never_deposited.1 c5Path
      (by norm_num [c5Path, Path.pdf])
  · exact empty_contribution_never_deposited.2 0 (Pdf.new [1]) [1] (3/10)
      MutationType.LargeStep Contribution.empty c4Proposal (1/2)
      (Spectrum.fill (40/13), ⟨3, 4⟩)
      (by norm_num [integratorIteration, c4Proposal, Contribution.acceptance,
        Contribution.isEmpty, Contribution.empty, Spectrum.black, Pdf.new,
        Pdf.value, stepBonus, Spectrum.fill, Spectrum.smul])

/-! ## C6: NaN containment at the image accumulator -/

theorem MFloat.add_eq_nan_iff (x y : MFloat) :
    x.add y = MFloat.nan ↔ x = MFloat.nan ∨ y = MFloat.nan := by
  cases x <;> cases y <;> simp [MFloat.add]

theorem MFloat.mul_eq_nan_iff (x y : MFloat) :
    x.mul y = MFloat.nan ↔ x = MFloat.nan ∨ y = MFloat.nan := by
  cases x <;> cases y <;> simp [MFloat.mul]

theorem MFloat.clampVal_eq_nan_iff (x : MFloat) (c : ℚ) :
    x.clampVal c = MFloat.nan ↔ x = MFloat.nan := by
  cases x <;> simp [MFloat.clampVal]

theorem MSpectrum.not_nan_add {s t : MSpectrum}
    (hs : ¬ s.hasNaNs) (ht : ¬ t.hasNaNs) : ¬ (s.add t).hasNaNs := by
  simp only [MSpectrum.hasNaNs, MSpectrum.add, MFloat.add_eq_nan_iff] at *
  tauto

theorem MSpectrum.not_nan_wmul (w : ℚ) {s : MSpectrum}
    (hs : ¬ s.hasNaNs) : ¬ (MSpectrum.wmul (MFloat.val w) s).hasNaNs := by
  simp only [MSpectrum.hasNaNs, MSpectrum.wmul, MFloat.mul_eq_nan_iff] at *
  tauto

theorem MSpectrum.not_nan_tryClamp {s : MSpectrum} (c : Option ℚ)
    (hs : ¬ s.hasNaNs) : ¬ (s.tryClamp c).hasNaNs := by
  cases c with
  | none => exact hs
  | some bound =>
      simp only [MSpectrum.hasNaNs, MSpectrum.tryClamp,
        MFloat.clampVal_eq_nan_iff] at *
      exact hs

theorem MSpectrum.not_nan_getD (px : List MSpectrum) (i : ℕ)
    (h : ∀ p ∈ px, ¬ p.hasNaNs) : ¬ (px.getD i MSpectrum.black).hasNaNs := by
  rcases hv : px[i]? with _ | v
  · simp [List.getD, hv, MSpectrum.black, MSpectrum.hasNaNs]
  · have hm : v ∈ px := List.getElem?_mem hv
    simpa [List.getD, hv] using h v hm

theorem depositLoop_not_nan (f : Filter) (sc cl : Option ℚ) (w : ℕ)
    (s : MSpectrum) (coords : Point2) (hs : ¬ s.hasNaNs) :
    ∀ (window : List (ℕ × ℕ)) (px : List MSpectrum),
      (∀ p ∈ px, ¬ p.hasNaNs) →
      ∀ p ∈ window.foldl (Image.depositPixel f sc cl w s coords) px,
        ¬ p.hasNaNs := by
  intro window
  induction window with
  | nil => exact fun px h p hp => h p hp
  | cons xy rest ih =>
      intro px h p hp
      simp only [List.foldl_cons] at hp
      refine ih _ ?_ p hp
      intro q hq
      simp only [Image.depositPixel] at hq
      rcases List.mem_or_eq_of_mem_set hq with hq | rfl
      · exact h q hq
      · exact MSpectrum.not_nan_tryClamp _
          (MSpectrum.not_nan_add (MSpectrum.not_nan_getD px _ h)
            (MSpectrum.not_nan_wmul _ (MSpectrum.not_nan_tryClamp _ hs)))

/-- C6: a zero pdf is detected before any division — the contribution
collapses to the empty one — and `Image::contribute` rejects any spectrum
containing a NaN, so an image whose pixels are all NaN-free stays NaN-free
under every deposit. -/
theorem nan_never_reaches_pixels :
    (∀ p : Path, p.pdf = 0 → p.contribution = Contribution.empty) ∧
    (∀ (img : Image) (s : MSpectrum) (c : Point2),
      (∀ px ∈ img.pixels, ¬ px.hasNaNs) →
      ∀ px ∈ (img.contribute s c).pixels, ¬ px.hasNaNs) := by
  constructor
  · intro p h
    simp [Path.contribution, h]
  · intro img s c h px hpx
    by_cases hn : s.hasNaNs
    · simp only [Image.contribute, hn, not_true_eq_false, if_false] at hpx
      exact h px hpx
    · simp only [Image.contribute, hn, not_false_eq_true, if_true] at hpx
      exact depositLoop_not_nan img.filter img.sampleClamp img.clamp
        img.width s c hn _ img.pixels h px hpx

/-- Witness for C6: the zero-pdf path `c6Path` yields the empty
contribution, and contributing a NaN spectrum to a clean 1x1 image leaves
every pixel NaN-free. -/
theorem nan_never_reaches_pixels_witness :
    c6Path.contribution = Contribution.empty ∧
    (∀ px ∈ (c6Image.contribute c6NaNSpectrum ⟨0, 0⟩).pixels,
      ¬ px.hasNaNs) := by
  constructor
  · exact nan_never_reaches_pixels.1 c6Path (by norm_num [c6Path, Path.pdf])
  · exact nan_never_reaches_pixels.2 c6Image c6NaNSpectrum ⟨0, 0⟩
      (by simp [c6Image, Image.new, MSpectrum.black, MSpectrum.hasNaNs])

/-! ## C9: symmetry of the geometry term -/

/-- C9: `geometry_term(d, n1, n2) = geometry_term(-d, n1, n2)` for all
inputs, and at `d = (10,0,0)`, `n1 = (cos 45deg, -sin 45deg, 0)`,
`n2 = (-cos 60deg, sin 60deg, 0)` the term equals
`|cos 45deg * cos 60deg| / 100`. -/
theorem geometry_term_symmetric :
    (∀ d n1 n2 : Vector3, geometry_term d n1 n2 = geometry_term d.neg n1 n2) ∧
    geometry_term ⟨10, 0, 0⟩
        ⟨Real.cos (Real.pi / 4), -Real.sin (Real.pi / 4), 0⟩
        ⟨-Real.cos (Real.pi / 3), Real.sin (Real.pi / 3), 0⟩ =
      |Real.cos (Real.pi / 4) * Real.cos (Real.pi / 3)| / 100 := by
  constructor
  · intro d n1 n2
    simp only [geometry_term, Vector3.dot, Vector3.neg]
    congr 1
    ring
  · simp only [geometry_term, Vector3.dot]
    have h100 : |(100 : ℝ)| = 100 := by norm_num
    rw [← h100, ← abs_div, ← abs_neg]
    congr 1
    ring

/-! ## C10: every stored coordinate stays in [0,1) -/

theorem catchUp_samples (p : Sample × MmltSampler) :
    (MmltSampler.catchUp p).2.samples = p.2.samples := by
  unfold MmltSampler.catchUp; split <;> rfl

theorem catchUp_rng (p : Sample × MmltSampler) :
    (MmltSampler.catchUp p).2.rng = p.2.rng := by
  unfold MmltSampler.catchUp; split <;> rfl

theorem catchUp_iteration (p : Sample × MmltSampler) :
    (MmltSampler.catchUp p).2.iteration = p.2.iteration := by
  unfold MmltSampler.catchUp; split <;> rfl

theorem catchUp_large_step_at (p : Sample × MmltSampler) :
    (MmltSampler.catchUp p).2.large_step_at = p.2.large_step_at := by
  unfold MmltSampler.catchUp; split <;> rfl

theorem catchUp_stream_count (p : Sample × MmltSampler) :
    (MmltSampler.catchUp p).2.stream_count = p.2.stream_count := by
  unfold MmltSampler.catchUp; split <;> rfl

theorem catchUp_stream_index (p : Sample × MmltSampler) :
    (MmltSampler.catchUp p).2.stream_index = p.2.stream_index := by
  unfold MmltSampler.catchUp; split <;> rfl

theorem catchUp_sample_index (p : Sample × MmltSampler) :
    (MmltSampler.catchUp p).2.sample_index = p.2.sample_index := by
  unfold MmltSampler.catchUp; split <;> rfl

theorem mutateSample_samples (p : Sample × MmltSampler) :
    (MmltSampler.mutateSample p).2.samples = p.2.samples := by
  cases hm : p.2.mutation_type <;> simp [MmltSampler.mutateSample, hm]

theorem mutateSample_rng (p : Sample × MmltSampler) :
    (MmltSampler.mutateSample p).2.rng = p.2.rng := by
  cases hm : p.2.mutation_type <;> simp [MmltSampler.mutateSample, hm]

theorem mutateSample_iteration (p : Sample × MmltSampler) :
    (MmltSampler.mutateSample p).2.iteration = p.2.iteration := by
  cases hm : p.2.mutation_type <;> simp [MmltSampler.mutateSample, hm]

theorem mutateSample_large_step_at (p : Sample × MmltSampler) :
    (MmltSampler.mutateSample p).2.large_step_at = p.2.large_step_at := by
  cases hm : p.2.mutation_type <;> simp [MmltSampler.mutateSample, hm]

theorem mutateSample_stream_count (p : Sample × MmltSampler) :
    (MmltSampler.mutateSample p).2.stream_count = p.2.stream_count := by
  cases hm : p.2.mutation_type <;> simp [MmltSampler.mutateSample, hm]

theorem mutateSample_stream_index (p : Sample × MmltSampler) :
    (MmltSampler.mutateSample p).2.stream_index = p.2.stream_index := by
  cases hm : p.2.mutation_type <;> simp [MmltSampler.mutateSample, hm]

theorem mutateSample_sample_index (p : Sample × MmltSampler) :
    (MmltSampler.mutateSample p).2.sample_index = p.2.sample_index := by
  cases hm : p.2.mutation_type <;> simp [MmltSampler.mutateSample, hm]

theorem mutateSample_fst_frozen (p : Sample × MmltSampler) :
    (MmltSampler.mutateSample p).1.backup_value = p.1.backup_value ∧
    (MmltSampler.mutateSample p).1.backup_modified_at = p.1.backup_modified_at ∧
    (MmltSampler.mutateSample p).1.modified_at = p.1.modified_at := by
  cases hm : p.2.mutation_type <;> simp [MmltSampler.mutateSample, hm]

theorem mutateSample_fst_value (p : Sample × MmltSampler)
    (hru : rngInUnit p.2) :
    0 ≤ (MmltSampler.mutateSample p).1.value ∧
    (MmltSampler.mutateSample p).1.value < 1 := by
  cases hm : p.2.mutation_type with
  | SmallStep =>
      simp only [MmltSampler.mutateSample, hm]
      constructor
      · exact Int.fract_nonneg _
      · exact Int.fract_lt_one _
  | LargeStep =>
      simp only [MmltSampler.mutateSample, hm]
      exact hru _

theorem catchUp_fst_value (p : Sample × MmltSampler) (hru : rngInUnit p.2)
    (hv : 0 ≤ p.1.value ∧ p.1.value < 1) :
    0 ≤ (MmltSampler.catchUp p).1.value ∧
    (MmltSampler.catchUp p).1.value < 1 := by
  unfold MmltSampler.catchUp
  split
  · exact hru _
  · exact hv

theorem rngInUnit_catchUp (p : Sample × MmltSampler) (h : rngInUnit p.2) :
    rngInUnit (MmltSampler.catchUp p).2 := by
  intro n
  rw [catchUp_rng]
  exact h n

theorem growSamples_length (s : MmltSampler) (index : ℕ) :
    index < (s.growSamples index).samples.length := by
  simp only [MmltSampler.growSamples, List.length_append, List.length_map,
    List.length_range]
  omega

theorem valuesInUnit_growSamples (s : MmltSampler) (index : ℕ)
    (hru : rngInUnit s) (h : valuesInUnit s) :
    valuesInUnit (s.growSamples index) := by
  intro smp hmem
  simp only [MmltSampler.growSamples, List.mem_append, List.mem_map,
    List.mem_range] at hmem
  rcases hmem with hmem | ⟨j, _, rfl⟩
  · exact h smp hmem
  · exact ⟨hru _, hru _⟩

theorem valuesInUnit_getD (s : MmltSampler) (i : ℕ) (h : valuesInUnit s) :
    (0 ≤ (s.samples.getD i (Sample.new 0)).value ∧
      (s.samples.getD i (Sample.new 0)).value < 1) ∧
    (0 ≤ (s.samples.getD i (Sample.new 0)).backup_value ∧
      (s.samples.getD i (Sample.new 0)).backup_value < 1) := by
  rcases hv : s.samples[i]? with _ | v
  · norm_num [List.getD, hv, Sample.new]
  · have hm : v ∈ s.samples := List.getElem?_mem hv
    simpa [List.getD, hv] using h v hm

theorem valuesInUnit_sample (s : MmltSampler) (lo hi : ℝ)
    (hru : rngInUnit s) (h : valuesInUnit s) :
    valuesInUnit (s.sample lo hi).2 := by
  intro smp hmem
  simp only [MmltSampler.sample] at hmem
  rcases List.mem_or_eq_of_mem_set hmem with hmem | rfl
  · rw [mutateSample_samples, catchUp_samples] at hmem
    exact valuesInUnit_growSamples s _ hru h smp hmem
  · have hgrow := valuesInUnit_growSamples s (MmltSampler.nextIndex s) hru h
    have hgd := valuesInUnit_getD (s.growSamples (MmltSampler.nextIndex s))
      (MmltSampler.nextIndex s) hgrow
    have hruC : rngInUnit
        (MmltSampler.catchUp
          ((s.growSamples (MmltSampler.nextIndex s)).samples.getD
              (MmltSampler.nextIndex s) (Sample.new 0),
            s.growSamples (MmltSampler.nextIndex s))).2 :=
      rngInUnit_catchUp _ hru
    refine ⟨mutateSample_fst_value _ hruC, ?_⟩
    rw [(mutateSample_fst_frozen _).1]
    exact catchUp_fst_value _ hru hgd.1

theorem valuesInUnit_mutate (s : MmltSampler) (h : valuesInUnit s) :
    valuesInUnit s.mutate.2 := h

theorem valuesInUnit_accept (s : MmltSampler) (h : valuesInUnit s) :
    valuesInUnit s.accept := by
  unfold MmltSampler.accept
  split <;> exact h

theorem valuesInUnit_reject (s : MmltSampler) (h : valuesInUnit s) :
    valuesInUnit s.reject := by
  intro smp hmem
  obtain ⟨x, hx, rfl⟩ := List.mem_map.mp hmem
  by_cases hmod : x.modified_at = s.iteration
  · simp only [hmod, if_true, Sample.restore]
    exact ⟨(h x hx).2, (h x hx).2⟩
  · simp only [hmod, if_false]
    exact h x hx

theorem rng_mutate (s : MmltSampler) : s.mutate.2.rng = s.rng := rfl

theorem rng_accept (s : MmltSampler) : s.accept.rng = s.rng := by
  unfold MmltSampler.accept
  split <;> rfl

theorem rng_reject (s : MmltSampler) : s.reject.rng = s.rng := rfl

theorem rng_sample (s : MmltSampler) (lo hi : ℝ) :
    (s.sample lo hi).2.rng = s.rng := by
  simp only [MmltSampler.sample]
  rw [mutateSample_rng, catchUp_rng]
  rfl

/-- Any successful run of sampler calls preserves both invariants. -/
theorem runOps_inv (ops : List SamplerOp) :
    ∀ s t : MmltSampler, rngInUnit s → valuesInUnit s →
      runOps s ops = some t → valuesInUnit t ∧ rngInUnit t := by
  induction ops with
  | nil =>
      intro s t hr h hrun
      simp only [runOps, Option.some.injEq] at hrun
      subst hrun
      exact ⟨h, hr⟩
  | cons op rest ih =>
      intro s t hr h hrun
      cases op with
      | startStream i =>
          simp only [runOps, applyOp, MmltSampler.startStream] at hrun
          by_cases hi : i < s.stream_count
          · simp only [hi, if_true, Option.some_bind] at hrun
            refine ih _ t ?_ ?_ hrun
            · exact hr
            · exact h
          · simp [hi] at hrun
      | mutate =>
          simp only [runOps, applyOp, Option.some_bind] at hrun
          refine ih _ t ?_ (valuesInUnit_mutate s h) hrun
          exact hr
      | accept =>
          simp only [runOps, applyOp, Option.some_bind] at hrun
          refine ih _ t ?_ (valuesInUnit_accept s h) hrun
          intro n
          rw [rng_accept]
          exact hr n
      | reject =>
          simp only [runOps, applyOp, Option.some_bind] at hrun
          refine ih _ t ?_ (valuesInUnit_reject s h) hrun
          exact hr
      | sample lo hi =>
          simp only [runOps, applyOp, Option.some_bind] at hrun
          refine ih _ t ?_ (valuesInUnit_sample s lo hi hr h) hrun
          intro n
          rw [rng_sample]
          exact hr n

/-- C10: starting from `MmltSampler::new`, after any successful sequence
of `start_stream` (with in-range indices), `mutate`, `accept`, `reject`
and `sample` calls — with the rng producing values in `[0,1)` as
`gen_range(0.0..1.0)` does — every stored coordinate value (and backup)
lies in `[0,1)`: fresh draws, lazy catch-ups and large steps store an rng
value, and small steps wrap through `value - value.floor()`. -/
theorem sampler_values_in_unit_interval (streamCount : ℕ) (rng : ℕ → ℝ)
    (ops : List SamplerOp) (t : MmltSampler)
    (hr : ∀ n, 0 ≤ rng n ∧ rng n < 1)
    (hrun : runOps (MmltSampler.new streamCount rng) ops = some t) :
    valuesInUnit t := by
  refine (runOps_inv ops (MmltSampler.new streamCount rng) t ?_ ?_ hrun).1
  · exact hr
  · intro smp hmem
    simp [MmltSampler.new] at hmem

/-- Witness for C10: one large-step mutation followed by one draw, with
the concrete rng stream `c10Rng`; the resulting single stored coordinate
is `1/3` with backup `1/2`. -/
theorem sampler_values_in_unit_interval_witness :
    valuesInUnit
      ⟨0.3, 0.01, 1, 0, 1, [⟨1/3, 1/2, 1, 0⟩], 1, 0,
        MutationType.LargeStep, c10Rng, 3⟩ := by
  refine sampler_values_in_unit_interval 1 c10Rng
    [SamplerOp.mutate, SamplerOp.sample 0 1] _ ?_ ?_
  · intro n
    unfold c10Rng
    split_ifs <;> norm_num
  · norm_num [runOps, applyOp, MmltSampler.new, MmltSampler.mutate,
      MmltSampler.sample, MmltSampler.growSamples, MmltSampler.catchUp,
      MmltSampler.mutateSample, MmltSampler.nextIndex, Sample.new,
      Sample.backup, c10Rng, List.range_succ, List.range_zero, List.set_cons_zero]

/-! ## C2: the mutate-sample-reject replay contract -/

theorem erf_inv_zero : erf_inv 0 = 0 := by
  unfold erf_inv
  norm_num [Real.log_one]

/-- C2 counterexample: run
`new(1); sample(0..1); mutate(); accept(); start_stream(0)` with the rng
stream `c2Rng` — the first mutation is an accepted **large step**, so
`large_step_at = 1`, while coordinate 0 was last modified at iteration 0.
The subsequent window `mutate(); sample(0..1); reject()` (a small-step
mutation, exactly the shape the claim quantifies over) leaves the
coordinate's stored value at `3/4` — the fresh uniform drawn by the lazy
large-step catch-up — instead of its pre-mutate value `1/3`: `reject`
restores the backup taken *after* the catch-up, so the claim fails.  The
iteration counter is restored. -/
theorem replay_restore_counterexample :
    c2AfterAccept.startStream 0 = some c2Pre ∧
    c2Post.iteration = c2Pre.iteration ∧
    (c2Pre.samples.getD 0 (Sample.new 0)).value = 1/3 ∧
    (c2Post.samples.getD 0 (Sample.new 0)).value = 3/4 ∧
    (c2Post.samples.getD 0 (Sample.new 0)).value ≠
      (c2Pre.samples.getD 0 (Sample.new 0)).value := by
  have h1 : ((MmltSampler.new 1 c2Rng).sample 0 1).2 =
      ⟨0.3, 0.01, 1, 0, 1, [⟨1/3, 1/3, 0, 0⟩], 0, 0,
        MutationType.SmallStep, c2Rng, 2⟩ := by
    norm_num [MmltSampler.sample, MmltSampler.new, MmltSampler.growSamples,
      MmltSampler.catchUp, MmltSampler.mutateSample, MmltSampler.nextIndex,
      Sample.new, Sample.backup, c2Rng, List.range_succ, List.range_zero,
      List.set_cons_zero, Real.sqrt_zero, erf_inv_zero]
  have h2 : c2AfterAccept =
      ⟨0.3, 0.01, 1, 0, 1, [⟨1/3, 1/3, 0, 0⟩], 1, 1,
        MutationType.LargeStep, c2Rng, 3⟩ := by
    unfold c2AfterAccept
    rw [h1]
    norm_num [MmltSampler.mutate, MmltSampler.accept, c2Rng]
  have h3 : c2Pre =
      ⟨0.3, 0.01, 1, 0, 0, [⟨1/3, 1/3, 0, 0⟩], 1, 1,
        MutationType.LargeStep, c2Rng, 3⟩ := by
    unfold c2Pre
    rw [h2]
  have h4 : (c2Pre.mutate).2 =
      ⟨0.3, 0.01, 1, 0, 0, [⟨1/3, 1/3, 0, 0⟩], 2, 1,
        MutationType.SmallStep, c2Rng, 4⟩ := by
    rw [h3]
    norm_num [MmltSampler.mutate, c2Rng]
  have h5 : ((c2Pre.mutate).2.sample 0 1).2 =
      ⟨0.3, 0.01, 1, 0, 1, [⟨3/4, 3/4, 2, 1⟩], 2, 1,
        MutationType.SmallStep, c2Rng, 6⟩ := by
    rw [h4]
    norm_num [MmltSampler.sample, MmltSampler.growSamples,
      MmltSampler.catchUp, MmltSampler.mutateSample, MmltSampler.nextIndex,
      Sample.new, Sample.backup, c2Rng, List.range_zero,
      List.set_cons_zero, Real.sqrt_one, erf_inv_zero]
  have h6 : c2Post =
      ⟨0.3, 0.01, 1, 0, 1, [⟨3/4, 3/4, 1, 1⟩], 1, 1,
        MutationType.SmallStep, c2Rng, 6⟩ := by
    unfold c2Post
    rw [h5]
    norm_num [MmltSampler.reject, Sample.restore]
  refine ⟨?_, ?_, ?_, ?_, ?_⟩
  · rw [h2]
    unfold c2Pre
    rw [h2]
    norm_num [MmltSampler.startStream]
  · rw [h3, h6]
  · rw [h3]
    norm_num [List.getD]
  · rw [h6]
    norm_num [List.getD]
  · rw [h3, h6]
    norm_num [List.getD]

theorem getD_set_ne {α : Type} (l : List α) (i j : ℕ) (x d : α)
    (h : i ≠ j) : (l.set i x).getD j d = l.getD j d := by
  simp only [List.getD]
  rw [List.get?_set_ne x l h]

theorem getD_set_eq {α : Type} (l : List α) (i : ℕ) (x d : α)
    (h : i < l.length) : (l.set i x).getD i d = x := by
  simp only [List.getD]
  rw [List.get?_set_eq_of_lt x h]
  rfl

theorem getD_map_of_lt {α : Type} (f : α → α) (l : List α) (i : ℕ) (d : α)
    (h : i < l.length) : (l.map f).getD i d = f (l.getD i d) := by
  rcases hv : l[i]? with _ | v
  · rw [List.getElem?_eq_none_iff] at hv
    omega
  · simp [List.getD, List.get?_eq_getElem?, List.getElem?_map, hv]

theorem sample_iteration (s : MmltSampler) (a b : ℝ) :
    (s.sample a b).2.iteration = s.iteration := by
  simp only [MmltSampler.sample, mutateSample_iteration, catchUp_iteration]
  rfl

theorem sample_large_step_at (s : MmltSampler) (a b : ℝ) :
    (s.sample a b).2.large_step_at = s.large_step_at := by
  simp only [MmltSampler.sample, mutateSample_large_step_at,
    catchUp_large_step_at]
  rfl

theorem sample_stream_count (s : MmltSampler) (a b : ℝ) :
    (s.sample a b).2.stream_count = s.stream_count := by
  simp only [MmltSampler.sample, mutateSample_stream_count,
    catchUp_stream_count]
  rfl

theorem sample_stream_index (s : MmltSampler) (a b : ℝ) :
    (s.sample a b).2.stream_index = s.stream_index := by
  simp only [MmltSampler.sample, mutateSample_stream_index,
    catchUp_stream_index]
  rfl

theorem sample_sample_index (s : MmltSampler) (a b : ℝ) :
    (s.sample a b).2.sample_index = s.sample_index + 1 := by
  simp only [MmltSampler.sample, mutateSample_sample_index,
    catchUp_sample_index]
  rfl

theorem sample_nextIndex (s : MmltSampler) (a b : ℝ) :
    MmltSampler.nextIndex (s.sample a b).2 =
      MmltSampler.nextIndex s + s.stream_count := by
  unfold MmltSampler.nextIndex
  rw [sample_stream_count, sample_stream_index, sample_sample_index]
  ring

theorem sample_samples_length (s : MmltSampler) (a b : ℝ) :
    s.samples.length ≤ (s.sample a b).2.samples.length := by
  simp only [MmltSampler.sample, mutateSample_samples, catchUp_samples,
    List.length_set, MmltSampler.growSamples, List.length_append,
    List.length_map, List.length_range]
  omega

theorem sample_getD_other (s : MmltSampler) (a b : ℝ) (i : ℕ)
    (hij : i ≠ MmltSampler.nextIndex s) (hi : i < s.samples.length) :
    (s.sample a b).2.samples.getD i (Sample.new 0) =
      s.samples.getD i (Sample.new 0) := by
  simp only [MmltSampler.sample, mutateSample_samples, catchUp_samples]
  rw [getD_set_ne _ _ _ _ _ (Ne.symm hij)]
  exact List.getD_append _ _ _ _ hi

theorem sample_getD_drawn (s : MmltSampler) (a b : ℝ)
    (hj : MmltSampler.nextIndex s < s.samples.length) :
    ((s.sample a b).2.samples.getD (MmltSampler.nextIndex s)
        (Sample.new 0)).modified_at = s.iteration ∧
    (s.large_step_at ≤
        (s.samples.getD (MmltSampler.nextIndex s) (Sample.new 0)).modified_at →
      ((s.sample a b).2.samples.getD (MmltSampler.nextIndex s)
          (Sample.new 0)).backup_value =
        (s.samples.getD (MmltSampler.nextIndex s) (Sample.new 0)).value ∧
      ((s.sample a b).2.samples.getD (MmltSampler.nextIndex s)
          (Sample.new 0)).backup_modified_at =
        (s.samples.getD (MmltSampler.nextIndex s) (Sample.new 0)).modified_at) := by
  have hG : (s.growSamples (MmltSampler.nextIndex s)).samples.getD
      (MmltSampler.nextIndex s) (Sample.new 0) =
      s.samples.getD (MmltSampler.nextIndex s) (Sample.new 0) := by
    simp only [MmltSampler.growSamples]
    exact List.getD_append _ _ _ _ hj
  have hset : (s.sample a b).2.samples.getD (MmltSampler.nextIndex s)
      (Sample.new 0) =
      { (MmltSampler.mutateSample
          ((MmltSampler.catchUp
            ((s.growSamples (MmltSampler.nextIndex s)).samples.getD
              (MmltSampler.nextIndex s) (Sample.new 0),
              s.growSamples (MmltSampler.nextIndex s))).1.backup,
           (MmltSampler.catchUp
            ((s.growSamples (MmltSampler.nextIndex s)).samples.getD
              (MmltSampler.nextIndex s) (Sample.new 0),
              s.growSamples (MmltSampler.nextIndex s))).2)).1 with
        modified_at :=
          (MmltSampler.mutateSample
            ((MmltSampler.catchUp
              ((s.growSamples (MmltSampler.nextIndex s)).samples.getD
                (MmltSampler.nextIndex s) (Sample.new 0),
                s.growSamples (MmltSampler.nextIndex s))).1.backup,
             (MmltSampler.catchUp
              ((s.growSamples (MmltSampler.nextIndex s)).samples.getD
                (MmltSampler.nextIndex s) (Sample.new 0),
                s.growSamples (MmltSampler.nextIndex s))).2)).2.iteration } := by
    simp only [MmltSampler.sample, mutateSample_samples, catchUp_samples]
    exact getD_set_eq _ _ _ _ (growSamples_length s _)
  rw [hset]
  constructor
  · show (MmltSampler.mutateSample _).2.iteration = s.iteration
    rw [mutateSample_iteration, catchUp_iteration]
    rfl
  · intro hgood
    have hnc : ¬ ((s.growSamples (MmltSampler.nextIndex s)).samples.getD
        (MmltSampler.nextIndex s) (Sample.new 0)).modified_at <
        (s.growSamples (MmltSampler.nextIndex s)).large_step_at := by
      rw [hG]
      show ¬ _ < s.large_step_at
      omega
    have hcu : (MmltSampler.catchUp
        ((s.growSamples (MmltSampler.nextIndex s)).samples.getD
          (MmltSampler.nextIndex s) (Sample.new 0),
          s.growSamples (MmltSampler.nextIndex s))).1 =
        (s.growSamples (MmltSampler.nextIndex s)).samples.getD
          (MmltSampler.nextIndex s) (Sample.new 0) := by
      unfold MmltSampler.catchUp
      rw [if_neg hnc]
    constructor
    · show (MmltSampler.mutateSample _).1.backup_value = _
      rw [(mutateSample_fst_frozen _).1]
      show ((MmltSampler.catchUp _).1.backup).backup_value = _
      rw [hcu, hG]
      rfl
    · show (MmltSampler.mutateSample _).1.backup_modified_at = _
      rw [(mutateSample_fst_frozen _).2.1]
      show ((MmltSampler.catchUp _).1.backup).backup_modified_at = _
      rw [hcu, hG]
      rfl

theorem ReplayInv_mutate (s0 : MmltSampler) : ReplayInv s0 (s0.mutate).2 := by
  refine ⟨rfl, rfl, rfl, le_refl _, ?_⟩
  intro i _
  left
  rfl

theorem ReplayInv_sample (s0 s : MmltSampler) (a b : ℝ)
    (hsc : 0 < s0.stream_count) (h : ReplayInv s0 s) :
    ReplayInv s0 (s.sample a b).2 := by
  obtain ⟨hit, hlsa, hsc', hlen, hcases⟩ := h
  refine ⟨?_, ?_, ?_, ?_, ?_⟩
  · rw [sample_iteration]; exact hit
  · rw [sample_large_step_at]; exact hlsa
  · rw [sample_stream_count]; exact hsc'
  · exact le_trans hlen (sample_samples_length s a b)
  · intro i hi
    by_cases hij : i = MmltSampler.nextIndex s
    · subst hij
      rcases hcases _ hi with hunt | htouch
      · right
        have hdrawn := sample_getD_drawn s a b (lt_of_lt_of_le hi hlen)
        refine ⟨?_, ?_, ?_⟩
        · rw [sample_nextIndex]
          omega
        · rw [hdrawn.1, sample_iteration]
        · intro hgood
          rw [← hlsa] at hgood
          rw [← hunt] at hgood
          have := hdrawn.2 hgood
          rw [hunt] at this
          exact this
      · exact absurd htouch.1 (lt_irrefl _)
    · have hother := sample_getD_other s a b i hij (lt_of_lt_of_le hi hlen)
      rw [hother]
      rcases hcases i hi with hunt | htouch
      · left; exact hunt
      · right
        refine ⟨?_, ?_, htouch.2.2⟩
        · rw [sample_nextIndex]
          omega
        · rw [htouch.2.1, sample_iteration]

theorem ReplayInv_sampleCalls (s0 : MmltSampler) (hsc : 0 < s0.stream_count)
    (ranges : List (ℝ × ℝ)) :
    ∀ s, ReplayInv s0 s → ReplayInv s0 (sampleCalls s ranges) := by
  induction ranges with
  | nil => intro s h; exact h
  | cons r rs ih =>
      intro s h
      exact ih _ (ReplayInv_sample s0 s r.1 r.2 hsc h)

/-- C2 (amended): for any sampler with `stream_count > 0` whose samples
are all stamped no later than the current iteration and whose
`large_step_at` does not exceed it, a `mutate()` followed by any number of
`sample(range)` calls followed by `reject()` restores the iteration
counter exactly, and restores the stored value and timestamp of every
pre-existing coordinate **whose `modified_at` is at least
`large_step_at`**.  (A coordinate last touched before the last accepted
large step is instead left at the fresh uniform value installed by the
lazy large-step catch-up — see the counterexample — so the claim's
unconditional form fails.) -/
theorem mutate_samples_reject_replay (s0 : MmltSampler)
    (ranges : List (ℝ × ℝ)) (hsc : 0 < s0.stream_count)
    (hls : s0.large_step_at ≤ s0.iteration)
    (hmods : ∀ smp ∈ s0.samples, smp.modified_at ≤ s0.iteration) :
    (MmltSampler.reject (sampleCalls (s0.mutate).2 ranges)).iteration =
      s0.iteration ∧
    ∀ i, i < s0.samples.length →
      s0.large_step_at ≤ (s0.samples.getD i (Sample.new 0)).modified_at →
      ((MmltSampler.reject (sampleCalls (s0.mutate).2 ranges)).samples.getD i
          (Sample.new 0)).value =
        (s0.samples.getD i (Sample.new 0)).value ∧
      ((MmltSampler.reject (sampleCalls (s0.mutate).2 ranges)).samples.getD i
          (Sample.new 0)).modified_at =
        (s0.samples.getD i (Sample.new 0)).modified_at := by
  obtain ⟨hit, hlsa, hsc', hlen, hcases⟩ :=
    ReplayInv_sampleCalls s0 hsc ranges _ (ReplayInv_mutate s0)
  constructor
  · show (sampleCalls (s0.mutate).2 ranges).iteration - 1 = s0.iteration
    omega
  · intro i hi hgood
    have hgd : (MmltSampler.reject (sampleCalls (s0.mutate).2 ranges)).samples.getD
        i (Sample.new 0) =
        (fun smp => if smp.modified_at =
            (sampleCalls (s0.mutate).2 ranges).iteration then smp.restore
          else smp)
          ((sampleCalls (s0.mutate).2 ranges).samples.getD i (Sample.new 0)) := by
      show ((sampleCalls (s0.mutate).2 ranges).samples.map _).getD i _ = _
      exact getD_map_of_lt _ _ _ _ (lt_of_lt_of_le hi hlen)
    rw [hgd]
    rcases hcases i hi with hunt | htouch
    · rw [hunt]
      have hne : (s0.samples.getD i (Sample.new 0)).modified_at ≠
          (sampleCalls (s0.mutate).2 ranges).iteration := by
        have hmem : (s0.samples.getD i (Sample.new 0)).modified_at ≤
            s0.iteration := by
          rcases hv : s0.samples[i]? with _ | v
          · rw [List.getElem?_eq_none_iff] at hv
            omega
          · have hvm := hmods v (List.getElem?_mem hv)
            simp only [List.getD, List.get?_eq_getElem?, hv, Option.getD_some]
            exact hvm
        omega
      have hid : (fun smp => if smp.modified_at =
            (sampleCalls (s0.mutate).2 ranges).iteration then smp.restore
          else smp) (s0.samples.getD i (Sample.new 0)) =
          s0.samples.getD i (Sample.new 0) := by
        simp only
        rw [if_neg hne]
      rw [hid]
      exact ⟨rfl, rfl⟩
    · obtain ⟨hb1, hb2⟩ := htouch.2.2 hgood
      simp only [htouch.2.1, if_true, Sample.restore]
      exact ⟨hb1, hb2⟩

/-- Witness for C2 (amended): one stored coordinate with
`modified_at = large_step_at = 0`, one sample call; the coordinate's value
and timestamp and the iteration counter come back exactly. -/
theorem mutate_samples_reject_replay_witness :
    (MmltSampler.reject
        (sampleCalls ((c2WitnessState).mutate).2 [(0, 1)])).iteration =
      c2WitnessState.iteration ∧
    ((MmltSampler.reject
        (sampleCalls ((c2WitnessState).mutate).2 [(0, 1)])).samples.getD 0
        (Sample.new 0)).value =
      (c2WitnessState.samples.getD 0 (Sample.new 0)).value := by
  constructor
  · exact (mutate_samples_reject_replay c2WitnessState [(0, 1)]
      (by norm_num [c2WitnessState])
      (by norm_num [c2WitnessState])
      (by intro smp hmem
          simp only [c2WitnessState, List.mem_singleton] at hmem
          simp [hmem])).1
  · exact ((mutate_samples_reject_replay c2WitnessState [(0, 1)]
      (by norm_num [c2WitnessState])
      (by norm_num [c2WitnessState])
      (by intro smp hmem
          simp only [c2WitnessState, List.mem_singleton] at hmem
          simp [hmem])).2 0
      (by norm_num [c2WitnessState])
      (by norm_num [c2WitnessState, List.getD])).1

end Mmlt
